import Mathlib

/-!
Shallow embedding of `src/components/IntervalTimePicker.tsx`: the duration
model, the clamping and cascading-bound functions, the per-field keyboard
handler, the direct-input change handler, the composite change handler and
the preset handler. JavaScript numbers are modelled as `Int` (the component
only ever manipulates integral values, and every quantity stays far below
2^53 so no floating-point rounding arises).
-/

namespace IntervalTimePicker

/-- The `Duration` value object `{hours, minutes, seconds}`. -/
structure Duration where
  hours : Int
  minutes : Int
  seconds : Int
deriving DecidableEq

/-- Success of `durationSchema.parse`: `hours ≥ 0`, `minutes` and `seconds`
in `[0, 59]` (zod `z.number().min(0)` / `.min(0).max(59)`). -/
def durationSchemaValid (d : Duration) : Bool :=
  decide (0 ≤ d.hours) && decide (0 ≤ d.minutes) && decide (d.minutes ≤ 59) &&
    decide (0 ≤ d.seconds) && decide (d.seconds ≤ 59)

/-- `durationToMs`. -/
def durationToMs (duration : Duration) : Int :=
  duration.hours * 3600000 + duration.minutes * 60000 + duration.seconds * 1000

/-- `getNextValidDuration`: the three-way total-order clamp. -/
def getNextValidDuration (duration minInterval maxInterval : Duration) : Duration :=
  if durationToMs duration < durationToMs minInterval then minInterval
  else if durationToMs duration > durationToMs maxInterval then maxInterval
  else duration

/-- The field discriminator `keyof Duration`. -/
inductive Field where
  | hours
  | minutes
  | seconds
deriving DecidableEq

/-- `getMaxValueForField`, mirroring the source's sequential early returns. -/
def getMaxValueForField (field : Field) (currentDuration maxInterval : Duration) : Int :=
  if field = .hours then maxInterval.hours
  else if currentDuration.hours = maxInterval.hours ∧ field = .minutes then
    maxInterval.minutes
  else if currentDuration.hours = maxInterval.hours ∧ field = .seconds ∧
      currentDuration.minutes = maxInterval.minutes then
    maxInterval.seconds
  else 59

/-- `getMinValueForField`, mirroring the source's sequential early returns. -/
def getMinValueForField (field : Field) (currentDuration minInterval : Duration) : Int :=
  if field = .hours then minInterval.hours
  else if currentDuration.hours = minInterval.hours ∧ field = .minutes then
    minInterval.minutes
  else if currentDuration.hours = minInterval.hours ∧ field = .seconds ∧
      currentDuration.minutes = minInterval.minutes then
    minInterval.seconds
  else 0

/-- `Number.prototype.toString()` for integral values. -/
def intToString (v : Int) : String :=
  if v < 0 then "-" ++ Nat.repr v.natAbs else Nat.repr v.toNat

/-- `String.prototype.padStart(2, '0')`. -/
def padStartTwo (s : String) : String :=
  if s.length < 2 then String.mk (List.replicate (2 - s.length) '0') ++ s else s

/-- `formatNumber`: `value.toString().padStart(2, '0')`. -/
def formatNumber (v : Int) : String :=
  padStartTwo (intToString v)

/-- `parseInt(s, 10)` on an all-digit string, the only shape reaching the
parses inside the digit-entry branch. -/
def parseDecimal (s : String) : Int :=
  s.data.foldl (fun acc c => acc * 10 + ((c.toNat - Char.toNat '0' : Nat) : Int)) 0

/-- The two-digit rolling candidate of the digit-entry branch:
`parseInt(currentStr.slice(1) + e.key, 10)` where
`currentStr = value.toString().padStart(2, '0')`. -/
def digitCandidate (value : Int) (d : Nat) : Int :=
  parseDecimal ((formatNumber value).drop 1 ++ Nat.repr d)

/-- A keystroke reaching `handleKeyDown`; `digit d` stands for a key matching
the regex for a single digit character, so `d ≤ 9`. -/
inductive Key where
  | tab
  | arrowLeft
  | arrowRight
  | arrowUp
  | arrowDown
  | digit (d : Nat)
  | other
deriving DecidableEq

/-- The observable outcome of one keystroke: the value passed to `onChange`
(if any), and whether `onLeftFocus` / `onRightFocus` was invoked. -/
structure KeyEffect where
  committed : Option Int
  movedLeft : Bool
  movedRight : Bool
deriving DecidableEq

/-- `handleKeyDown` of `IntervalInput`. `hasLeftFocus` / `hasRightFocus`
model whether the optional `onLeftFocus` / `onRightFocus` callbacks were
supplied. The source's independent `if` statements test mutually exclusive
keys, so exactly one branch fires per keystroke. -/
def handleKeyDown (value minV maxV : Int)
    (hasLeftFocus hasRightFocus isLastField : Bool) : Key → KeyEffect
  | .tab => ⟨none, false, false⟩
  | .arrowLeft => ⟨none, hasLeftFocus, false⟩
  | .arrowRight => ⟨none, false, hasRightFocus && !isLastField⟩
  | .arrowUp =>
    ⟨some (if value + 1 > maxV then minV else value + 1), false, false⟩
  | .arrowDown =>
    ⟨some (if value - 1 < minV then maxV else value - 1), false, false⟩
  | .digit d =>
    if minV ≤ digitCandidate value d ∧ digitCandidate value d ≤ maxV then
      ⟨some (digitCandidate value d), false, hasRightFocus && !isLastField⟩
    else if minV ≤ (d : Int) ∧ (d : Int) ≤ maxV then
      ⟨some (d : Int), false, false⟩
    else ⟨none, false, false⟩
  | .other => ⟨none, false, false⟩

/-- `parseInt(text, 10)` on an arbitrary string: leading whitespace skipped,
optional sign, then the longest leading digit run; `none` models `NaN`. -/
def jsParseInt (s : String) : Option Int :=
  let cs := s.data.dropWhile Char.isWhitespace
  let signed : Int × List Char :=
    match cs with
    | '-' :: t => (-1, t)
    | '+' :: t => (1, t)
    | _ => (1, cs)
  let ds := signed.2.takeWhile Char.isDigit
  if ds.isEmpty then none
  else some (signed.1 * ds.foldl (fun a c => a * 10 + ((c.toNat - Char.toNat '0' : Nat) : Int)) 0)

/-- The `Input` `onChange` handler of `IntervalInput`: commit the parsed
integer only when it is a number within `[min, max]`, otherwise ignore. -/
def handleDirectChange (minV maxV : Int) (text : String) : Option Int :=
  match jsParseInt text with
  | some val => if minV ≤ val ∧ val ≤ maxV then some val else none
  | none => none

/-- The hidden-field adjustment at the top of `handleIntervalChange`. -/
def adjustInterval (sh sm ss : Bool) (d : Duration) : Duration :=
  { hours := if sh then d.hours else 0
    minutes := if sm then d.minutes else 0
    seconds := if ss then d.seconds else 0 }

/-- `handleIntervalChange`: the Duration passed to `setInterval`. The
`try { durationSchema.parse ... } catch` becomes a total branch on
`durationSchemaValid`; the catch arm re-emits the previous `interval`, so no
exception escapes. -/
def handleIntervalChange (sh sm ss : Bool)
    (minInterval maxInterval interval newInterval : Duration) : Duration :=
  let adjustedInterval := adjustInterval sh sm ss newInterval
  if durationSchemaValid adjustedInterval then
    getNextValidDuration adjustedInterval minInterval maxInterval
  else interval

/-- An `IntervalPreset`. -/
structure IntervalPreset where
  id : String
  value : String
  label : String
  duration : Option Duration
deriving DecidableEq

/-- The observable outcome of `handlePresetChange`: the Duration emitted via
`setInterval` (when the looked-up preset carries one) and the key passed to
`onPresetChange` (invoked unconditionally at the end of the handler). -/
structure PresetOutcome where
  emitted : Option Duration
  presetCallbackArg : String
deriving DecidableEq

/-- `handlePresetChange`: look the preset up by its `value`; a carried
duration goes through `handleIntervalChange`; `onPresetChange` always gets
the selected key. -/
def handlePresetChange (sh sm ss : Bool)
    (minInterval maxInterval interval : Duration)
    (presets : List IntervalPreset) (value : String) : PresetOutcome :=
  match presets.find? (fun p => p.value == value) with
  | some preset =>
    match preset.duration with
    | some d =>
      { emitted := some (handleIntervalChange sh sm ss
          minInterval maxInterval interval d)
        presetCallbackArg := value }
    | none => { emitted := none, presetCallbackArg := value }
  | none => { emitted := none, presetCallbackArg := value }

/-- C1: for bounds with `total(min) ≤ total(max)`, `getNextValidDuration`
returns `min` when `total(D) < total(min)`, `max` when `total(D) > total(max)`,
and `D` itself otherwise; in particular equality with either bound does not
clamp, and the snap is to the entire bound Duration. -/
theorem getNextValidDuration_clamps (D minI maxI : Duration)
    (h : durationToMs minI ≤ durationToMs maxI) :
    (durationToMs D < durationToMs minI → getNextValidDuration D minI maxI = minI) ∧
    (durationToMs maxI < durationToMs D → getNextValidDuration D minI maxI = maxI) ∧
    (durationToMs minI ≤ durationToMs D → durationToMs D ≤ durationToMs maxI →
      getNextValidDuration D minI maxI = D) ∧
    (durationToMs D = durationToMs minI → getNextValidDuration D minI maxI = D) ∧
    (durationToMs D = durationToMs maxI → getNextValidDuration D minI maxI = D) := by
  unfold getNextValidDuration
  refine ⟨fun h1 => ?_, fun h1 => ?_, fun h1 h2 => ?_, fun h1 => ?_, fun h1 => ?_⟩ <;>
    split_ifs <;> first | rfl | omega

/-- C1 witness: a Duration below the minimum snaps to the whole minimum. -/
theorem getNextValidDuration_clamps_witness :
    getNextValidDuration ⟨0, 0, 0⟩ ⟨0, 5, 0⟩ ⟨24, 0, 0⟩ = ⟨0, 5, 0⟩ :=
  (getNextValidDuration_clamps ⟨0, 0, 0⟩ ⟨0, 5, 0⟩ ⟨24, 0, 0⟩ (by decide)).1 (by decide)

/-- C2: `getMaxValueForField` returns `maxInterval.hours` for the hours field;
for minutes, `maxInterval.minutes` exactly when the current hours equal the
max hours and `59` otherwise; for seconds, `maxInterval.seconds` exactly when
current hours and minutes both equal the max's and `59` otherwise. -/
theorem getMaxValueForField_cases (cd maxI : Duration) :
    getMaxValueForField .hours cd maxI = maxI.hours ∧
    getMaxValueForField .minutes cd maxI =
      (if cd.hours = maxI.hours then maxI.minutes else 59) ∧
    getMaxValueForField .seconds cd maxI =
      (if cd.hours = maxI.hours ∧ cd.minutes = maxI.minutes then maxI.seconds
       else 59) := by
  unfold getMaxValueForField
  refine ⟨?_, ?_, ?_⟩ <;> split_ifs <;> simp_all

/-- C3: `getMinValueForField` mirrors `getMaxValueForField` with `0` as the
fallback floor. -/
theorem getMinValueForField_cases (cd minI : Duration) :
    getMinValueForField .hours cd minI = minI.hours ∧
    getMinValueForField .minutes cd minI =
      (if cd.hours = minI.hours then minI.minutes else 0) ∧
    getMinValueForField .seconds cd minI =
      (if cd.hours = minI.hours ∧ cd.minutes = minI.minutes then minI.seconds
       else 0) := by
  unfold getMinValueForField
  refine ⟨?_, ?_, ?_⟩ <;> split_ifs <;> simp_all

/-- C4: whenever the schema check inside `handleIntervalChange` succeeds and
`total(minInterval) ≤ total(maxInterval)`, the emitted Duration lies within
`[minInterval, maxInterval]` by total milliseconds. -/
theorem handleIntervalChange_in_range
    (sh sm ss : Bool) (minI maxI interval newInterval : Duration)
    (hrange : durationToMs minI ≤ durationToMs maxI)
    (hvalid : durationSchemaValid (adjustInterval sh sm ss newInterval) = true) :
    durationToMs minI ≤
        durationToMs (handleIntervalChange sh sm ss minI maxI interval newInterval) ∧
      durationToMs (handleIntervalChange sh sm ss minI maxI interval newInterval) ≤
        durationToMs maxI := by
  have hstep : handleIntervalChange sh sm ss minI maxI interval newInterval =
      getNextValidDuration (adjustInterval sh sm ss newInterval) minI maxI :=
    if_pos hvalid
  rw [hstep]
  unfold getNextValidDuration
  split_ifs <;> omega

/-- C4 witness: an all-zero edit against bounds `[{0,5,0}, {24,0,0}]` lands
inside the range. -/
theorem handleIntervalChange_in_range_witness :
    durationToMs ⟨0, 5, 0⟩ ≤
        durationToMs (handleIntervalChange true true true ⟨0, 5, 0⟩ ⟨24, 0, 0⟩
          ⟨1, 0, 0⟩ ⟨0, 0, 0⟩) ∧
      durationToMs (handleIntervalChange true true true ⟨0, 5, 0⟩ ⟨24, 0, 0⟩
          ⟨1, 0, 0⟩ ⟨0, 0, 0⟩) ≤ durationToMs ⟨24, 0, 0⟩ :=
  handleIntervalChange_in_range true true true ⟨0, 5, 0⟩ ⟨24, 0, 0⟩ ⟨1, 0, 0⟩ ⟨0, 0, 0⟩
    (by decide) (by decide)

/-- C5: with `onRightFocus` supplied and `min ≤ max`, a digit keystroke
commits the rolling two-digit candidate (zero-padded display, leftmost
character dropped, digit appended, parsed) when that candidate is in
`[min, max]`, advancing focus exactly when this is not the last field;
otherwise it commits the single digit when that is in `[min, max]` with no
focus advance; otherwise it changes nothing. -/
theorem handleKeyDown_digit_cases (value minV maxV : Int) (hl il : Bool) (d : Nat)
    (hrange : minV ≤ maxV) :
    (minV ≤ digitCandidate value d ∧ digitCandidate value d ≤ maxV →
      handleKeyDown value minV maxV hl true il (.digit d) =
        ⟨some (digitCandidate value d), false, !il⟩) ∧
    (¬(minV ≤ digitCandidate value d ∧ digitCandidate value d ≤ maxV) →
      minV ≤ (d : Int) ∧ (d : Int) ≤ maxV →
      handleKeyDown value minV maxV hl true il (.digit d) =
        ⟨some (d : Int), false, false⟩) ∧
    (¬(minV ≤ digitCandidate value d ∧ digitCandidate value d ≤ maxV) →
      ¬(minV ≤ (d : Int) ∧ (d : Int) ≤ maxV) →
      handleKeyDown value minV maxV hl true il (.digit d) =
        ⟨none, false, false⟩) := by
  simp only [handleKeyDown]
  refine ⟨fun h1 => ?_, fun h1 h2 => ?_, fun h1 h2 => ?_⟩ <;>
    split_ifs <;> simp_all

/-- C5 witness: a field showing "05" with bounds `[0, 59]` and the digit 3 commits
53 and advances focus. -/
theorem handleKeyDown_digit_cases_witness :
    handleKeyDown 5 0 59 false true false (.digit 3) = ⟨some 53, false, true⟩ :=
  ((handleKeyDown_digit_cases 5 0 59 false false 3 (by decide)).1
    (by decide)).trans (by decide)

/-- C6: with `min ≤ max`, Up-arrow commits `v + 1` when `v + 1 ≤ max` and
wraps to `min` otherwise; Down-arrow commits `v - 1` when `min ≤ v - 1` and
wraps to `max` otherwise; neither arrow moves focus. -/
theorem handleKeyDown_arrow_cases (value minV maxV : Int) (hl hr il : Bool)
    (hrange : minV ≤ maxV) :
    handleKeyDown value minV maxV hl hr il .arrowUp =
        ⟨some (if value + 1 ≤ maxV then value + 1 else minV), false, false⟩ ∧
      handleKeyDown value minV maxV hl hr il .arrowDown =
        ⟨some (if minV ≤ value - 1 then value - 1 else maxV), false, false⟩ := by
  constructor <;> simp only [handleKeyDown] <;>
    split_ifs <;> first | rfl | (exfalso; omega)

/-- C6 witness: value 59 with bounds `[0, 59]` wraps to 0 on Up-arrow. -/
theorem handleKeyDown_arrow_cases_witness :
    handleKeyDown 59 0 59 false false false .arrowUp = ⟨some 0, false, false⟩ :=
  ((handleKeyDown_arrow_cases 59 0 59 false false false (by decide)).1).trans (by decide)

/-- C7 counterexample: with `showSeconds = false`, `minInterval = {0,5,30}`
and the candidate `{0,0,0}`, the clamp snaps to the minimum bound verbatim,
so the emitted Duration has `seconds = 30 ≠ 0`. -/
theorem handleIntervalChange_hidden_seconds_cex :
    handleIntervalChange true true false ⟨0, 5, 30⟩ ⟨999999, 59, 59⟩ ⟨1, 0, 0⟩ ⟨0, 0, 0⟩ =
        ⟨0, 5, 30⟩ ∧
      (handleIntervalChange true true false ⟨0, 5, 30⟩ ⟨999999, 59, 59⟩ ⟨1, 0, 0⟩
          ⟨0, 0, 0⟩).seconds ≠ 0 := by
  decide

/-- C7 (amended): a hidden field is zeroed in the candidate before validation
and clamping, so the emitted Duration has 0 in that field provided both
bounds and the previously committed interval also carry 0 there (the clamp
may emit a bound verbatim and the catch arm re-emits the previous interval). -/
theorem handleIntervalChange_hidden_fields (sh sm ss : Bool)
    (minI maxI interval newInterval : Duration) :
    (sh = false → minI.hours = 0 → maxI.hours = 0 → interval.hours = 0 →
      (handleIntervalChange sh sm ss minI maxI interval newInterval).hours = 0) ∧
    (sm = false → minI.minutes = 0 → maxI.minutes = 0 → interval.minutes = 0 →
      (handleIntervalChange sh sm ss minI maxI interval newInterval).minutes = 0) ∧
    (ss = false → minI.seconds = 0 → maxI.seconds = 0 → interval.seconds = 0 →
      (handleIntervalChange sh sm ss minI maxI interval newInterval).seconds = 0) := by
  have hmem : handleIntervalChange sh sm ss minI maxI interval newInterval =
        adjustInterval sh sm ss newInterval ∨
      handleIntervalChange sh sm ss minI maxI interval newInterval = minI ∨
      handleIntervalChange sh sm ss minI maxI interval newInterval = maxI ∨
      handleIntervalChange sh sm ss minI maxI interval newInterval = interval := by
    simp only [handleIntervalChange, getNextValidDuration]
    split_ifs <;> tauto
  refine ⟨fun h1 h2 h3 h4 => ?_, fun h1 h2 h3 h4 => ?_, fun h1 h2 h3 h4 => ?_⟩ <;>
    subst h1 <;> rcases hmem with h | h | h | h <;> rw [h] <;>
    simp_all [adjustInterval]

/-- C8: with all three fields shown, a candidate failing the schema (hours
negative, or minutes/seconds outside `[0, 59]`) is discarded and the previous
interval is emitted unchanged; a candidate passing the schema is emitted
clamped; the embedding is a total function, so no exception escapes. -/
theorem handleIntervalChange_schema_cases (minI maxI interval cand : Duration) :
    (durationSchemaValid cand = false →
      handleIntervalChange true true true minI maxI interval cand = interval) ∧
    (durationSchemaValid cand = true →
      handleIntervalChange true true true minI maxI interval cand =
        getNextValidDuration cand minI maxI) ∧
    (durationSchemaValid cand = false ↔
      (cand.hours < 0 ∨ cand.minutes < 0 ∨ 59 < cand.minutes ∨
        cand.seconds < 0 ∨ 59 < cand.seconds)) := by
  have hadj : adjustInterval true true true cand = cand := rfl
  refine ⟨fun h1 => ?_, fun h1 => ?_, ?_⟩
  · simp [handleIntervalChange, hadj, h1]
  · simp [handleIntervalChange, hadj, h1]
  · simp only [durationSchemaValid, Bool.and_eq_false_iff, decide_eq_false_iff_not,
      not_le]
    tauto

/-- C9: `handlePresetChange` looks the preset up by its `value`; a carried
duration is emitted through `handleIntervalChange` (the same validate-and-clamp
path as a field edit); the preset callback receives the selected key on every
click; a preset without a duration emits no duration change. -/
theorem handlePresetChange_cases (sh sm ss : Bool) (minI maxI interval : Duration)
    (presets : List IntervalPreset) (v : String) :
    (handlePresetChange sh sm ss minI maxI interval presets v).presetCallbackArg = v ∧
    (handlePresetChange sh sm ss minI maxI interval presets v).emitted =
      (match presets.find? (fun p => p.value == v) with
        | some p => p.duration.map
            (fun d => handleIntervalChange sh sm ss minI maxI interval d)
        | none => none) := by
  unfold handlePresetChange
  rcases hfind : presets.find? (fun p => p.value == v) with _ | p
  · simp [hfind]
  · rcases hd : p.duration with _ | d
    · simp [hfind, hd]
    · simp [hfind, hd]

/-- C10 counterexample: from the out-of-range value 5 with bounds `[10, 59]`,
an Up-arrow commits 6, which is still below the minimum. -/
theorem handleKeyDown_arrowUp_out_of_range_cex :
    (handleKeyDown 5 10 59 false false false .arrowUp).committed = some 6 ∧
      ¬ (10 : Int) ≤ 6 := by
  decide

/-- C10 (amended): with `min ≤ max`, digit entry commits only values inside
`[min, max]` from any starting value (both digit commits are range-guarded),
and the direct input change path only ever commits parsed integers inside
`[min, max]` from any starting value; every keystroke, arrows included,
commits only values inside `[min, max]` when the starting value is within
`[min, max]`, while an arrow keystroke from an out-of-range starting value
may commit an out-of-range value. -/
theorem committed_values_in_range (value minV maxV : Int) (hl hr il : Bool)
    (hrange : minV ≤ maxV) :
    (∀ d w, (handleKeyDown value minV maxV hl hr il (.digit d)).committed = some w →
      minV ≤ w ∧ w ≤ maxV) ∧
    (∀ text w, handleDirectChange minV maxV text = some w →
      minV ≤ w ∧ w ≤ maxV) ∧
    (minV ≤ value ∧ value ≤ maxV →
      ∀ k w, (handleKeyDown value minV maxV hl hr il k).committed = some w →
        minV ≤ w ∧ w ≤ maxV) := by
  refine ⟨fun d w hw => ?_, fun text w hw => ?_, fun hv k w hw => ?_⟩
  · simp only [handleKeyDown] at hw
    split_ifs at hw <;> simp at hw <;> omega
  · unfold handleDirectChange at hw
    rcases hjs : jsParseInt text with _ | val <;> simp only [hjs] at hw
    · exact Option.noConfusion hw
    · split_ifs at hw <;> simp_all
  · cases k with
    | tab => simp [handleKeyDown] at hw
    | arrowLeft => simp [handleKeyDown] at hw
    | arrowRight => simp [handleKeyDown] at hw
    | other => simp [handleKeyDown] at hw
    | arrowUp =>
      simp only [handleKeyDown, Option.some.injEq] at hw
      split_ifs at hw <;> omega
    | arrowDown =>
      simp only [handleKeyDown, Option.some.injEq] at hw
      split_ifs at hw <;> omega
    | digit d =>
      simp only [handleKeyDown] at hw
      split_ifs at hw <;> simp at hw <;> omega

/-- C10 witness: from the out-of-range value 77 with bounds `[0, 59]`, a digit
keystroke falls back to the single digit 3, which is inside the bounds. -/
theorem committed_values_in_range_witness :
    (0 : Int) ≤ 59 ∧ ((0 : Int) ≤ 3 ∧ (3 : Int) ≤ 59) :=
  ⟨by decide, (committed_values_in_range 77 0 59 false false false (by decide)).1
    3 3 (by decide)⟩

end IntervalTimePicker
